import Mathlib

/-!
Verification development for the Sonar-Ledger statement-parsing and
categorization core (TypeScript sources under `src/frontend/src/lib` and the
UOB parser).  The definitions below are shallow embeddings of the source
functions; machine floats carrying exact decimal data (amounts with two
decimals, the fixed thresholds) are modelled with `ℚ`, and monetary values
are additionally tracked in integer cents, which the two-decimal statement
format represents exactly.
-/

set_option allowUnsafeReducibility true
attribute [semireducible] Rat.mul Rat.add Rat.sub Rat.neg

/-- Model of JS `String.prototype.toLowerCase` as used on the parser's ASCII
statement text: lower-case every character. -/
def lowerStr (s : String) : String := ⟨s.data.map Char.toLower⟩

/-- Helper for `includes`: the pattern (second argument) occurs at the start
of the text (first argument). -/
def leadsWith : List Char → List Char → Bool
  | _, [] => true
  | [], _ :: _ => false
  | c :: cs, p :: ps => c == p && leadsWith cs ps

/-- Helper for `includes`: the pattern occurs somewhere in the text. -/
def hasSubList (pat : List Char) : List Char → Bool
  | [] => leadsWith [] pat
  | c :: cs => leadsWith (c :: cs) pat || hasSubList pat cs

/-- Model of JS `String.prototype.includes`: `includes s pat` is true iff
`pat` occurs contiguously in `s` (always true for the empty pattern). -/
def includes (s pat : String) : Bool := hasSubList pat.data s.data

/-- From `categorizer.ts` (`categorizeTransaction`): the Income branch
predicate, over the already lower-cased description. -/
def hitIncome (desc : String) : Bool :=
  includes desc "salary" || includes desc "payroll" ||
  includes desc "giro - salary" || includes desc "bonus"

/-- From `categorizer.ts`: the Investments branch predicate (broker names,
cpf/srs, and vendor broker hints). -/
def hitInvestments (desc v : String) : Bool :=
  includes desc "tiger brokers" || includes desc "moomoo" ||
  includes desc "interactive brokers" || includes desc "syfe" ||
  includes desc "stashaway" || includes desc "endowus" ||
  includes desc "poems" || includes desc "dbs vickers" ||
  includes desc "cpf" || includes desc "srs" ||
  includes v "tiger" || includes v "moomoo" || includes v "syfe"

/-- From `categorizer.ts`: the Savings branch predicate (JS `&&` binds
tighter than `||`). -/
def hitSavings (desc : String) : Bool :=
  (includes desc "save" && (includes desc "transfer" || includes desc "to ")) ||
  includes desc "savings" || includes desc "fixed deposit"

/-- From `categorizer.ts`: the Credit Card Payment branch predicate. -/
def hitCreditCard (desc : String) : Bool :=
  includes desc "credit card" || includes desc "card payment" ||
  includes desc "uob card" || includes desc "dbs card" ||
  includes desc "ocbc card" || includes desc "citi card" ||
  includes desc "amex" || includes desc "american express" ||
  includes desc "paymt thru" || includes desc "e-bank" || includes desc "cyberb"

/-- From `categorizer.ts`: the rebate/cashback branch predicate (mapped to
Income). -/
def hitRebate (desc : String) : Bool :=
  includes desc "rebate" || includes desc "cashback" || includes desc "cash back" ||
  includes desc "reward" || includes desc "one card additional"

/-- From `categorizer.ts`: the Food & Dining branch predicate. -/
def hitFood (desc v : String) : Bool :=
  includes desc "grab" || includes desc "foodpanda" || includes desc "deliveroo" ||
  includes desc "restaurant" || includes desc "cafe" || includes desc "coffee" ||
  includes desc "mcdonald" || includes desc "kfc" || includes desc "subway" ||
  includes desc "starbucks" || includes desc "toast box" || includes desc "ya kun" ||
  includes desc "kopitiam" || includes desc "food court" || includes desc "hawker" ||
  includes desc "bakery" || includes desc "bubble tea" || includes desc "bbt" ||
  includes desc "gongcha" || includes desc "koi" || includes desc "liho" ||
  includes desc "mixue" || includes desc "eatery" || includes desc "dining" ||
  includes v "cafe" || includes v "restaurant" || includes v "food" ||
  includes v "coffee" || includes v "bakery" || includes v "kitchen"

/-- From `categorizer.ts`: the Groceries branch predicate. -/
def hitGroceries (desc v : String) : Bool :=
  includes desc "ntuc" || includes desc "fairprice" || includes desc "cold storage" ||
  includes desc "giant" || includes desc "sheng siong" || includes desc "don don donki" ||
  includes desc "market" || includes desc "grocer" || includes desc "supermarket" ||
  includes v "ntuc" || includes v "fairprice" || includes v "cold storage"

/-- From `categorizer.ts`: the Transport branch predicate. -/
def hitTransport (desc : String) : Bool :=
  includes desc "bus/mrt" || includes desc "ez-link" || includes desc "transit" ||
  includes desc "simplygo" || includes desc "grab transport" || includes desc "gojek" ||
  includes desc "tada" || includes desc "comfort" || includes desc "taxi" ||
  includes desc "uber" || includes desc "parking" || includes desc "carpark" ||
  includes desc "petrol" || includes desc "shell" || includes desc "esso" ||
  includes desc "caltex" || includes desc "spc" || includes desc "lta"

/-- From `categorizer.ts`: the Shopping branch predicate. -/
def hitShopping (desc v : String) : Bool :=
  includes desc "shopee" || includes desc "lazada" || includes desc "amazon" ||
  includes desc "qoo10" || includes desc "taobao" || includes desc "uniqlo" ||
  includes desc "h&m" || includes desc "zara" || includes desc "cotton on" ||
  includes desc "ikea" || includes desc "courts" || includes desc "harvey norman" ||
  includes desc "best denki" || includes desc "challenger" ||
  includes v "shop" || includes v "store" || includes v "retail"

/-- From `categorizer.ts`: the Subscriptions branch predicate. -/
def hitSubscriptions (desc : String) : Bool :=
  includes desc "netflix" || includes desc "spotify" || includes desc "youtube" ||
  includes desc "disney" || includes desc "apple" || includes desc "google" ||
  includes desc "amazon prime" || includes desc "hbo" || includes desc "subscription" ||
  includes desc "membership" || includes desc "recurring" ||
  includes desc "chatgpt" || includes desc "openai" || includes desc "github" ||
  includes desc "notion" || includes desc "figma" || includes desc "adobe"

/-- From `categorizer.ts`: the Entertainment branch predicate. -/
def hitEntertainment (desc : String) : Bool :=
  includes desc "cinema" || includes desc "movie" || includes desc "golden village" ||
  includes desc "cathay" || includes desc "shaw" || includes desc "imax" ||
  includes desc "concert" || includes desc "ticket" || includes desc "event" ||
  includes desc "karaoke" || includes desc "arcade" || includes desc "bowling" ||
  includes desc "escape" || includes desc "zoo" || includes desc "safari" ||
  includes desc "sentosa" || includes desc "uss" || includes desc "attraction"

/-- From `categorizer.ts`: the Bills & Utilities branch predicate. -/
def hitBills (desc : String) : Bool :=
  includes desc "singtel" || includes desc "starhub" || includes desc "m1" ||
  includes desc "circles" || includes desc "giga" || includes desc "sp services" ||
  includes desc "sp group" || includes desc "utilities" || includes desc "electricity" ||
  includes desc "water" || includes desc "gas" || includes desc "internet" ||
  includes desc "broadband" || includes desc "mobile" || includes desc "phone bill"

/-- From `categorizer.ts`: the Tax branch predicate. -/
def hitTax (desc : String) : Bool :=
  includes desc "iras" || includes desc "income tax" || includes desc "tax payment" ||
  includes desc "gst" || includes desc "property tax"

/-- From `categorizer.ts`: the Rent branch predicate. -/
def hitRent (desc : String) : Bool :=
  includes desc "rent" || includes desc "rental" || includes desc "lease" ||
  includes desc "landlord" || includes desc "tenancy"

/-- From `categorizer.ts`: the Healthcare branch predicate. -/
def hitHealthcare (desc : String) : Bool :=
  includes desc "clinic" || includes desc "hospital" || includes desc "doctor" ||
  includes desc "medical" || includes desc "pharmacy" || includes desc "guardian" ||
  includes desc "watsons" || includes desc "dental" || includes desc "polyclinic" ||
  includes desc "health" || includes desc "medisave"

/-- From `categorizer.ts`: the Insurance branch predicate. -/
def hitInsurance (desc : String) : Bool :=
  includes desc "insurance" || includes desc "prudential" || includes desc "aia" ||
  includes desc "great eastern" || includes desc "ntuc income" || includes desc "aviva" ||
  includes desc "manulife" || includes desc "policy" || includes desc "premium"

/-- From `categorizer.ts`: the Education branch predicate. -/
def hitEducation (desc : String) : Bool :=
  includes desc "school" || includes desc "university" || includes desc "college" ||
  includes desc "tuition" || includes desc "course" || includes desc "udemy" ||
  includes desc "coursera" || includes desc "skillsfuture" || includes desc "education"

/-- From `categorizer.ts`: the P2P Transfers branch predicate. -/
def hitP2P (desc v : String) : Bool :=
  includes desc "paynow" || includes desc "paylah" || includes desc "pay lah" ||
  includes v "paynow"

/-- From `categorizer.ts`: the generic Transfers branch predicate. -/
def hitTransfers (desc : String) : Bool :=
  includes desc "transfer" || includes desc "paynow" || includes desc "pib" ||
  includes desc "mbk" || includes desc "giro"

/-- Shallow embedding of `categorizeTransaction` (`categorizer.ts`, the Rule
Engine): the description and optional vendor are lower-cased (a missing
vendor becomes the empty string, as does JS `vendor?.toLowerCase() || ''`)
and the keyword branches are evaluated in source order, first match wins,
default `"Other"`. -/
def categorizeTransaction (description : String) (vendor : Option String) : String :=
  let desc := lowerStr description
  let v := lowerStr (vendor.getD "")
  if hitIncome desc then "Income"
  else if hitInvestments desc v then "Investments"
  else if hitSavings desc then "Savings"
  else if hitCreditCard desc then "Credit Card Payment"
  else if hitRebate desc then "Income"
  else if hitFood desc v then "Food & Dining"
  else if hitGroceries desc v then "Groceries"
  else if hitTransport desc then "Transport"
  else if hitShopping desc v then "Shopping"
  else if hitSubscriptions desc then "Subscriptions"
  else if hitEntertainment desc then "Entertainment"
  else if hitBills desc then "Bills"
  else if hitTax desc then "Tax"
  else if hitRent desc then "Rent"
  else if hitHealthcare desc then "Healthcare"
  else if hitInsurance desc then "Insurance"
  else if hitEducation desc then "Education"
  else if hitP2P desc v then "P2P Transfers"
  else if hitTransfers desc then "Transfers"
  else "Other"


/-- Model of a JS `Date` as the UOB parser observes it: `year` via
`getFullYear`, `month` via `getMonth` (0-based, January = 0, December = 11),
`day` via `getDate`. -/
structure SDate where
  year : Int
  month : Nat
  day : Nat
deriving DecidableEq

/-- Statement period (`StatementPeriod` in `types.ts`): start and end dates. -/
structure SPeriod where
  startD : SDate
  endD : SDate
deriving DecidableEq

/-- Shallow embedding of `UOBParser.adjustDateForYearBoundary` (`uob.ts`):
`date` was built from the year-less token `(tokDay, tokMonth)` and some
default year; when the period spans a year boundary and the transaction
month is at or past the period's start month, the date is rebuilt from the
token with the period's start year. -/
def adjustDateForYearBoundary (date : SDate) (tokDay tokMonth : Nat)
    (period : SPeriod) : SDate :=
  if period.startD.year < period.endD.year ∧ date.month ≥ period.startD.month then
    ⟨period.startD.year, tokMonth, tokDay⟩
  else date

/-- The date assigned by `UOBParser.parseTransactions` /
`parseBankTransactions` to a year-less date token: first
`new Date(dateStr year)` with `year = period.end.getFullYear()`, then
`adjustDateForYearBoundary`. -/
def assignDate (tokDay tokMonth : Nat) (period : SPeriod) : SDate :=
  adjustDateForYearBoundary ⟨period.endD.year, tokMonth, tokDay⟩ tokDay tokMonth period

/-- Month lengths backing JS `Date` validity for a "dd Mon yyyy" string
(February gets 29 days in leap years). -/
def daysInMonth (month : Nat) (year : Int) : Nat :=
  if month = 1 then
    if year % 4 = 0 ∧ (year % 100 ≠ 0 ∨ year % 400 = 0) then 29 else 28
  else if month = 3 ∨ month = 5 ∨ month = 8 ∨ month = 10 then 30
  else 31

/-- Validity of the parsed date `new Date("dd Mon yyyy")`: the day must fit
the month (`isNaN(date.getTime())` in `parseBankTransactions` filters the
rest out). -/
def dateValid (day month : Nat) (year : Int) : Bool :=
  1 ≤ day && day ≤ daysInMonth month year

/-- One element of the `rawMatches` array of
`UOBParser.parseBankTransactions`: the date token split into day and 0-based
month, the description, and the two decimal numeric tokens (transaction
amount and running balance) in exact integer cents — the regex
`[\d,]+\.\d{2}` guarantees two decimal places, so cents are exact. -/
structure RawMatch where
  day : Nat
  month : Nat
  description : String
  txAmountCents : Int
  balanceCents : Int
deriving DecidableEq

/-- First-transaction inflow heuristics of `parseBankTransactions` (the
`isInflow` test, case-sensitive as in the source). -/
def isFirstInflow (m : RawMatch) : Bool :=
  includes m.description "Inward" || includes m.description "Cash Deposit" ||
  includes m.description "Bonus Interest" ||
  (includes m.description "PAYNOW" && !includes m.description "PIB" &&
    !includes m.description "MBK")

/-- The signed amount (in cents) `parseBankTransactions` computes for a raw
match: balance delta against the previous raw match's balance when one
exists, otherwise the inflow heuristics applied to the transaction amount. -/
def rawAmountCents (prev : Option Int) (m : RawMatch) : Int :=
  match prev with
  | some p => m.balanceCents - p
  | none => if isFirstInflow m then m.txAmountCents else -m.txAmountCents

/-- Output transaction of the bank-statement branch, restricted to the
fields the verified claims mention: assigned date, signed amount and running
balance in currency units (`Math.round(amount * 100) / 100` and the parsed
balance are exact on two-decimal data, so `mkRat cents 100` is their value).
Vendor extraction, description normalization and the rule category do not
affect any claim and are left out of this record. -/
structure BankTx where
  date : SDate
  amount : ℚ
  balance : ℚ
deriving DecidableEq

/-- Shallow embedding of the second phase of
`UOBParser.parseBankTransactions` (lines 138-188): walk the raw matches
threading `prevBalance`, compute the signed amount, always update
`prevBalance`, then drop small interest entries and invalid dates, and emit
the remaining transactions. -/
def processBank (period : SPeriod) : Option Int → List RawMatch → List BankTx
  | _, [] => []
  | prev, m :: rest =>
    let amt := rawAmountCents prev m
    let rest' := processBank period (some m.balanceCents) rest
    if includes m.description "Interest" && amt.natAbs < 5000 then rest'
    else if !dateValid m.day m.month period.endD.year then rest'
    else
      { date := assignDate m.day m.month period
        amount := mkRat amt 100
        balance := mkRat m.balanceCents 100 } :: rest'


/-- A registered statement parser as the registry sees it (`BankParser` in
`types.ts`): its identifier and its `canParse` confidence scorer. -/
structure ParserSpec where
  bankId : String
  canParse : String → ℚ

/-- Shallow embedding of `UOBParser.canParse` (`uob.ts`): confidence tiers
over the lower-cased first-page text. -/
def uobCanParse (firstPageText : String) : ℚ :=
  let text := lowerStr firstPageText
  if includes text "uobgroup" || includes text "united overseas bank" then mkRat 95 100
  else if includes text "uob one" || includes text "uob card" then mkRat 85 100
  else if includes text "one account" && includes text "singapore" then mkRat 6 10
  else 0

/-- The UOB parser instance as registered. -/
def uobParserSpec : ParserSpec := ⟨"uob", uobCanParse⟩

/-- One step of `ParserRegistryImpl.findParser`'s loop: keep the incumbent
unless this parser's confidence is strictly higher. -/
def findParserStep (t : String) (best : Option ParserSpec × ℚ) (p : ParserSpec) :
    Option ParserSpec × ℚ :=
  if p.canParse t > best.2 then (some p, p.canParse t) else best

/-- Shallow embedding of `ParserRegistryImpl.findParser` (`registry.ts`):
scan all parsers keeping the strictly-best confidence (starting from
`bestConfidence = 0`, `bestParser = null`), and return the best parser only
when its confidence reaches 0.5. -/
def findParser (parsers : List ParserSpec) (t : String) : Option ParserSpec :=
  let r := parsers.foldl (findParserStep t) (none, 0)
  if r.2 ≥ mkRat 1 2 then r.1 else none

/-- The registry's parser list: the constructor of `ParserRegistryImpl`
registers exactly the UOB parser. -/
def registryParsers : List ParserSpec := [uobParserSpec]


/-- Embedding vectors (`Float32Array` in `embeddings.ts`), modelled as exact
rational coordinate lists. -/
abbrev Vec := List ℚ

/-- Shallow embedding of `cosineSimilarity` (`embeddings.ts`): the plain dot
product — the vectors are produced normalized, so the dot product is the
cosine similarity. -/
def cosineSimilarity (a b : Vec) : ℚ :=
  (List.zipWith (fun x y => x * y) a b).foldl (fun acc z => acc + z) 0

/-- JS `Map.prototype.set` on an association list: replace the value under an
existing key, or append a new entry. -/
def mapSet {α : Type} (l : List (String × α)) (k : String) (v : α) :
    List (String × α) :=
  if (l.lookup k).isSome then
    l.map (fun p => if p.1 = k then (k, v) else p)
  else l ++ [(k, v)]

/-- The mutable module state of `embeddings.ts`, plus instrumentation:
`extractor` tells whether the feature-extraction pipeline is initialized,
`embed` is the deterministic embedding oracle standing for the fixed model
(`getEmbedding` consults it only when `extractor` is set),
`categoryEmbeddings` is the optional exemplar table, `userDefinedMappings`
and `userMappingEmbeddings` hold the learned corrections,
`txCache` is `transactionEmbeddingCache`, `savedMappings` is the durable
IndexedDB copy of the correction map, and `embedCalls` counts invocations
of the model (so "no vector was computed" is observable). -/
structure EmbState where
  extractor : Bool
  embed : String → Vec
  categoryEmbeddings : Option (List (String × Vec))
  userDefinedMappings : List (String × String)
  userMappingEmbeddings : List (String × String × Vec)
  txCache : List (String × Vec)
  savedMappings : List (String × String)
  embedCalls : Nat

/-- Result of a classification, with the number of cosine-similarity
evaluations the call performed (one per loop iteration in the source). -/
structure ClassifyOut where
  category : String
  confidence : ℚ
  comparisons : Nat
deriving DecidableEq

/-- Model of `getEmbedding`: consult the embedding oracle and count the
model invocation (the source throws when the model is missing; every caller
in the source guards on `extractor` first, and so do the callers below). -/
def getEmbeddingS (s : EmbState) (text : String) : Vec × EmbState :=
  (s.embed text, { s with embedCalls := s.embedCalls + 1 })

/-- Cache key of `getTxCacheKey` (`embeddings.ts`):
`vendor ? description|vendor : description`, where an empty vendor string is
falsy in JS and yields the bare description. -/
def txKey (description : String) (vendor : Option String) : String :=
  match vendor with
  | some v => if v = "" then description else description ++ "|" ++ v
  | none => description

/-- Text embedded for a transaction:
`vendor ? description vendor : description`. -/
def txText (description : String) (vendor : Option String) : String :=
  match vendor with
  | some v => if v = "" then description else description ++ " " ++ v
  | none => description

/-- One comparison step of `categorizeWithEmbeddingSync`'s loops: keep the
incumbent (category, score) unless this candidate scores strictly higher;
`boost` is added to the raw cosine similarity. -/
def bestStep (e : Vec) (boost : ℚ) (b : String × ℚ) (cand : String × Vec) :
    String × ℚ :=
  let sc := cosineSimilarity e cand.2 + boost
  if sc > b.2 then (cand.1, sc) else b

/-- Shallow embedding of `categorizeWithEmbeddingSync` (`embeddings.ts`):
starting from ("Other", -1), scan the user-mapping vectors with the fixed
boost `USER_MAPPING_BOOST = 0.25`, then the category exemplar vectors; if
the best score stays below `CONFIDENCE_THRESHOLD = 0.8` return "Other" with
the raw score, else the best category with the score capped at 1. -/
def categorizeWithEmbeddingSync (s : EmbState) (e : Vec) : ClassifyOut :=
  match s.categoryEmbeddings with
  | none => ⟨"Other", 0, 0⟩
  | some ces =>
    let b1 := s.userMappingEmbeddings.foldl
      (fun b u => bestStep e (mkRat 1 4) b (u.2.1, u.2.2)) ("Other", -1)
    let b2 := ces.foldl (bestStep e 0) b1
    let comps := s.userMappingEmbeddings.length + ces.length
    if b2.2 < mkRat 8 10 then ⟨"Other", b2.2, comps⟩
    else ⟨b2.1, min b2.2 1, comps⟩

/-- Shallow embedding of the async `categorizeWithEmbeddings`
(`embeddings.ts`): not-ready guard, exact-match short-circuit on the
user-defined mappings (confidence 1.0, no vector work), then cache-first
embedding retrieval and the sync similarity classification; a computed
embedding is stored in the cache. -/
def categorizeWithEmbeddings (s : EmbState) (description : String)
    (vendor : Option String) : ClassifyOut × EmbState :=
  if s.categoryEmbeddings.isNone || !s.extractor then (⟨"Other", 0, 0⟩, s)
  else
    match s.userDefinedMappings.lookup description with
    | some c => (⟨c, 1, 0⟩, s)
    | none =>
      let key := txKey description vendor
      match s.txCache.lookup key with
      | some e => (categorizeWithEmbeddingSync s e, s)
      | none =>
        let r := getEmbeddingS s (txText description vendor)
        let s2 := { r.2 with txCache := mapSet r.2.txCache key r.1 }
        (categorizeWithEmbeddingSync s2 r.1, s2)

/-- Shallow embedding of `categorizeWithEmbeddingsFast` (`embeddings.ts`):
sync fast path restricted to cached vectors; `none` models the JS `null`. -/
def categorizeWithEmbeddingsFast (s : EmbState) (description : String)
    (vendor : Option String) : Option ClassifyOut :=
  if s.categoryEmbeddings.isNone then none
  else
    match s.userDefinedMappings.lookup description with
    | some c => some ⟨c, 1, 0⟩
    | none =>
      match s.txCache.lookup (txKey description vendor) with
      | none => none
      | some e => some (categorizeWithEmbeddingSync s e)

/-- Shallow embedding of `isModelReady` (`embeddings.ts`). -/
def isModelReady (s : EmbState) : Bool :=
  s.categoryEmbeddings.isSome && s.extractor

/-- Result of `categorizeTransactionSmart`: category, confidence and the
method tag (`'embedding'` or `'rules'`). -/
structure SmartOut where
  category : String
  confidence : ℚ
  method : String
deriving DecidableEq

/-- Shallow embedding of `categorizeTransactionSmart` (`categorizer.ts`):
embedding classification when the model is ready (falling back to the rules
below confidence 0.25), rule-based classification otherwise.  The function
is total: the not-ready path returns instead of raising. -/
def categorizeTransactionSmart (s : EmbState) (description : String)
    (vendor : Option String) : SmartOut × EmbState :=
  if isModelReady s then
    let r := categorizeWithEmbeddings s description vendor
    if r.1.confidence < mkRat 1 4 then
      (⟨categorizeTransaction description vendor, 0, "rules"⟩, r.2)
    else (⟨r.1.category, r.1.confidence, "embedding"⟩, r.2)
  else (⟨categorizeTransaction description vendor, 0, "rules"⟩, s)

/-- Shallow embedding of `learnUserCategory` (`embeddings.ts`): when the
model is not initialized, warn and return (no state change at all);
otherwise store the mapping, compute and store its embedding, and persist
the mapping table (`saveUserMappings`). -/
def learnUserCategory (s : EmbState) (description category : String) : EmbState :=
  if !s.extractor then s
  else
    let r := getEmbeddingS s description
    let s1 := { r.2 with
      userDefinedMappings := mapSet r.2.userDefinedMappings description category
      userMappingEmbeddings :=
        mapSet r.2.userMappingEmbeddings description (category, r.1) }
    { s1 with savedMappings := s1.userDefinedMappings }

/-- Transaction as the similarity search sees it (`allTransactions` entries
in `embeddings.ts`): description, optional vendor, hidden flag. -/
structure SimTx where
  description : String
  vendor : Option String
  hidden : Bool
deriving DecidableEq

/-- The cache key of a transaction. -/
def txKeyOf (tx : SimTx) : String := txKey tx.description tx.vendor

/-- Cached-embedding lookup (`getCachedEmbedding` in `embeddings.ts`). -/
def getCachedEmbedding (cache : List (String × Vec)) (description : String)
    (vendor : Option String) : Option Vec :=
  cache.lookup (txKey description vendor)

/-- Index the transaction array like the JS `for (let i = 0; ...)` loop. -/
def withIdxFrom {α : Type} (n : Nat) : List α → List (Nat × α)
  | [] => []
  | a :: l => (n, a) :: withIdxFrom (n + 1) l

/-- Insert a scored candidate into a similarity-descending list, after equal
scores (stable). -/
def insertDesc (x : Nat × ℚ) : List (Nat × ℚ) → List (Nat × ℚ)
  | [] => [x]
  | y :: ys => if x.2 ≥ y.2 then x :: y :: ys else y :: insertDesc x ys

/-- Model of `results.sort((a, b) => b.similarity - a.similarity)`: a stable
sort by similarity descending. -/
def sortDesc : List (Nat × ℚ) → List (Nat × ℚ)
  | [] => []
  | x :: xs => insertDesc x (sortDesc xs)

/-- The filter body of `findSimilarTransactionsFast`'s loop: skip hidden
transactions, skip the target itself (identified by description and vendor),
use only cached embeddings, keep scores at or above the threshold. -/
def fastFilter (cache : List (String × Vec)) (te : Vec) (td : String)
    (tv : Option String) (thr : ℚ) (p : Nat × SimTx) : Option (Nat × ℚ) :=
  if p.2.hidden then none
  else if p.2.description = td ∧ p.2.vendor = tv then none
  else
    match getCachedEmbedding cache p.2.description p.2.vendor with
    | none => none
    | some e =>
      let sim := cosineSimilarity te e
      if sim ≥ thr then some (p.1, sim) else none

/-- Shallow embedding of `findSimilarTransactionsFast` (`embeddings.ts`):
empty when the target's own embedding is not cached; otherwise the filtered,
scored candidate list sorted by similarity descending.  The source's default
threshold is 0.85. -/
def findSimilarTransactionsFast (cache : List (String × Vec)) (td : String)
    (tv : Option String) (txs : List SimTx) (thr : ℚ) : List (Nat × ℚ) :=
  match getCachedEmbedding cache td tv with
  | none => []
  | some te => sortDesc ((withIdxFrom 0 txs).filterMap (fastFilter cache te td tv thr))

/-- Shallow embedding of `getTransactionEmbedding` (`embeddings.ts`): `none`
without a model; otherwise cache-first retrieval, computing, caching and
persisting on a miss. -/
def getTransactionEmbedding (s : EmbState) (description : String)
    (vendor : Option String) : Option Vec × EmbState :=
  if !s.extractor then (none, s)
  else
    match s.txCache.lookup (txKey description vendor) with
    | some e => (some e, s)
    | none =>
      let r := getEmbeddingS s (txText description vendor)
      (some r.1, { r.2 with txCache := mapSet r.2.txCache (txKey description vendor) r.1 })

/-- The fallback loop of `findSimilarTransactions` over the indexed
transactions: skip hidden entries, the target, keys already covered by the
fast results and keys already cached; compute the embedding of the rest,
cache it, and keep scores at or above the threshold. -/
def slowLoop (te : Vec) (td : String) (tv : Option String) (thr : ℚ)
    (processed : List String) :
    EmbState → List (Nat × SimTx) → List (Nat × ℚ) × EmbState
  | s, [] => ([], s)
  | s, p :: rest =>
    if p.2.hidden then slowLoop te td tv thr processed s rest
    else if p.2.description = td ∧ p.2.vendor = tv then
      slowLoop te td tv thr processed s rest
    else if processed.contains (txKeyOf p.2) || (s.txCache.lookup (txKeyOf p.2)).isSome then
      slowLoop te td tv thr processed s rest
    else
      match getTransactionEmbedding s p.2.description p.2.vendor with
      | (none, s1) => slowLoop te td tv thr processed s1 rest
      | (some e, s1) =>
        let sim := cosineSimilarity te e
        let r := slowLoop te td tv thr processed s1 rest
        (if sim ≥ thr then (p.1, sim) :: r.1 else r.1, r.2)

/-- Shallow embedding of the async `findSimilarTransactions`
(`embeddings.ts`): empty without a model; ensure the target embedding, take
the fast (cached-only) results, and if more than 80% of all transactions
already have cached vectors return them as they are; otherwise compute the
missing vectors (the source does so in batches of 10 with yields in
between — pure timing, not modelled) and merge, sorting by similarity
descending. -/
def findSimilarTransactions (s : EmbState) (td : String) (tv : Option String)
    (txs : List SimTx) (thr : ℚ) : List (Nat × ℚ) × EmbState :=
  if !s.extractor then ([], s)
  else
    match getTransactionEmbedding s td tv with
    | (none, s1) => ([], s1)
    | (some te, s1) =>
      let fast := findSimilarTransactionsFast s1.txCache td tv txs thr
      let cachedCount :=
        (txs.filter (fun tx => (s1.txCache.lookup (txKeyOf tx)).isSome)).length
      if (cachedCount : ℚ) > (txs.length : ℚ) * mkRat 8 10 then (fast, s1)
      else
        let processed := fast.filterMap (fun r => (txs.get? r.1).map txKeyOf)
        let slow := slowLoop te td tv thr processed s1 (withIdxFrom 0 txs)
        (sortDesc (fast ++ slow.1), slow.2)

/-- A concrete initialized classifier state used by concrete witnesses: the
model is loaded, one exemplar, one learned correction, three cached
transaction vectors. -/
def exampleReadyState : EmbState :=
  { extractor := true
    embed := fun _ => [1]
    categoryEmbeddings := some [("Transport", [1])]
    userDefinedMappings := [("STARBUCKS COFFEE", "Food & Dining")]
    userMappingEmbeddings := [("STARBUCKS COFFEE", ("Food & Dining", [1]))]
    txCache := [("t0", [1]), ("t1", [1]), ("t2", [1])]
    savedMappings := [("STARBUCKS COFFEE", "Food & Dining")]
    embedCalls := 0 }

/-- A concrete uninitialized classifier state (no pipeline, no exemplar
table) that nevertheless holds a stored user correction — reachable in the
source, e.g. through `replaceUserMappings` before `initializeEmbeddings`. -/
def exampleNotReadyState : EmbState :=
  { extractor := false
    embed := fun _ => []
    categoryEmbeddings := none
    userDefinedMappings := [("STARBUCKS COFFEE", "Food & Dining")]
    userMappingEmbeddings := []
    txCache := []
    savedMappings := []
    embedCalls := 0 }

/-- Four visible transactions for the similarity-search witnesses; the first
three have cached vectors in `exampleReadyState`, the fourth does not. -/
def exampleTxs : List SimTx :=
  [⟨"t0", none, false⟩, ⟨"t1", none, false⟩, ⟨"t2", none, false⟩, ⟨"t3", none, false⟩]

/-- Cache holding the two Grab rides of the spec's similarity example. -/
def grabCache : List (String × Vec) :=
  [("GRAB* RIDE 12345", [1]), ("GRAB* RIDE 67890", [1])]

/-- The two Grab-ride transactions of the spec's similarity example. -/
def grabTxs : List SimTx :=
  [⟨"GRAB* RIDE 12345", none, false⟩, ⟨"GRAB* RIDE 67890", none, false⟩]

/-- The score list of a similarity classification as the spec describes it:
the cosine similarity against every user-correction vector plus the fixed
0.25 boost, followed by the cosine similarity against every category
exemplar vector. -/
def scoreList (s : EmbState) (e : Vec) (ces : List (String × Vec)) : List ℚ :=
  s.userMappingEmbeddings.map (fun u => cosineSimilarity e u.2.2 + mkRat 1 4) ++
  ces.map (fun cand => cosineSimilarity e cand.2)

/-- The maximum of the score list, computed the way the source's loops do:
a left fold of `max` from the initial score -1. -/
def bestScore (s : EmbState) (e : Vec) (ces : List (String × Vec)) : ℚ :=
  (scoreList s e ces).foldl max (-1)

/-- Claim C2 (amended): the Rule Engine evaluates its keyword branches in
source order with first match winning, and the Investments branch is checked
before the Transfers branch, so any description matching an Investments
keyword (and not the earlier Income branch) resolves to "Investments" even
when it also matches the Transfers keywords — e.g. "TRANSFER TO TIGER
BROKERS".  However the Investments keyword list holds only broker names and
cpf/srs, not the word "investment", so
`categorizeTransaction "TRANSFER TO INVESTMENT ACCOUNT"` returns
"Transfers", not "Investments". -/
theorem c2_rule_order :
    (∀ (d : String) (v : Option String),
      hitInvestments (lowerStr d) (lowerStr (v.getD "")) = true →
      hitIncome (lowerStr d) = false →
      categorizeTransaction d v = "Investments") ∧
    categorizeTransaction "TRANSFER TO TIGER BROKERS" none = "Investments" ∧
    categorizeTransaction "TRANSFER TO INVESTMENT ACCOUNT" none = "Transfers" := by
  refine ⟨?_, by decide, by decide⟩
  intro d v h1 h2
  simp only [categorizeTransaction]
  rw [h2, h1]
  simp

/-- Claim C2, witness for the amended theorem at a concrete input. -/
theorem c2_rule_order_witness :
    categorizeTransaction "TRANSFER TO TIGER BROKERS" none = "Investments" :=
  c2_rule_order.1 "TRANSFER TO TIGER BROKERS" none (by decide) (by decide)

/-- Claim C2, counterexample to the claim as stated: the Rule Engine maps
"TRANSFER TO INVESTMENT ACCOUNT" to "Transfers", not "Investments". -/
theorem c2_rule_order_counterexample :
    categorizeTransaction "TRANSFER TO INVESTMENT ACCOUNT" none = "Transfers" ∧
    ("Transfers" : String) ≠ "Investments" := by
  exact ⟨by decide, by decide⟩

/-- Claim C3: a year-less date token defaults to the statement period's end
year; when the period spans a year boundary (start year < end year) and the
token's month is at or past the period's start month, it is reassigned to
the start year.  In particular for the period 28 Dec 2024 - 05 Jan 2025
(months 0-based as in JS `getMonth`), "31 Dec" resolves to 2024 and "02 Jan"
to 2025. -/
theorem c3_year_assignment :
    (∀ (d mo : Nat) (period : SPeriod),
      assignDate d mo period =
        if period.startD.year < period.endD.year ∧ mo ≥ period.startD.month then
          ⟨period.startD.year, mo, d⟩
        else ⟨period.endD.year, mo, d⟩) ∧
    assignDate 31 11 ⟨⟨2024, 11, 28⟩, ⟨2025, 0, 5⟩⟩ = ⟨2024, 11, 31⟩ ∧
    assignDate 2 0 ⟨⟨2024, 11, 28⟩, ⟨2025, 0, 5⟩⟩ = ⟨2025, 0, 2⟩ := by
  refine ⟨?_, by decide, by decide⟩
  intro d mo period
  rfl

/-- Claim C5 (amended): provided the classifier is initialized (model and
exemplar table present), a description stored in the Correction Store is
returned with its stored category, confidence exactly 1, zero similarity
comparisons, and an unchanged state (so no embedding computed, nothing
cached or persisted) — on both the async and the sync fast path. -/
theorem c5_exact_match (s : EmbState) (d : String) (v : Option String) (c : String)
    (hready : isModelReady s = true)
    (hl : s.userDefinedMappings.lookup d = some c) :
    categorizeWithEmbeddings s d v = (⟨c, 1, 0⟩, s) ∧
    categorizeWithEmbeddingsFast s d v = some ⟨c, 1, 0⟩ := by
  rw [isModelReady, Bool.and_eq_true] at hready
  obtain ⟨ces, hces⟩ := Option.isSome_iff_exists.mp hready.1
  constructor
  · simp [categorizeWithEmbeddings, hces, hready.2, hl]
  · simp [categorizeWithEmbeddingsFast, hces, hl]

/-- Claim C5, witness: the stored description "STARBUCKS COFFEE" in the
initialized example state. -/
theorem c5_exact_match_witness :
    categorizeWithEmbeddings exampleReadyState "STARBUCKS COFFEE" none =
      (⟨"Food & Dining", 1, 0⟩, exampleReadyState) ∧
    categorizeWithEmbeddingsFast exampleReadyState "STARBUCKS COFFEE" none =
      some ⟨"Food & Dining", 1, 0⟩ :=
  c5_exact_match exampleReadyState "STARBUCKS COFFEE" none "Food & Dining"
    (by decide) (by decide)

/-- Claim C5, counterexample to the claim as stated: with the model
uninitialized, a description stored in the Correction Store is classified
"Other" with confidence 0 by the async path (the not-ready guard precedes
the exact-match check), not its stored category. -/
theorem c5_exact_match_counterexample :
    exampleNotReadyState.userDefinedMappings.lookup "STARBUCKS COFFEE" =
      some "Food & Dining" ∧
    (categorizeWithEmbeddings exampleNotReadyState "STARBUCKS COFFEE" none).1 =
      ⟨"Other", 0, 0⟩ ∧
    ("Other" : String) ≠ "Food & Dining" := by
  exact ⟨by decide, by decide, by decide⟩

/-- Claim C9: when the embedding model is not ready, classification degrades
instead of raising (all embedded functions are total): the async classifier
returns ("Other", 0) without touching the state, and
`categorizeTransactionSmart` returns the Rule Engine's category with
method 'rules'. -/
theorem c9_not_ready_fallback (s : EmbState) (d : String) (v : Option String)
    (h : isModelReady s = false) :
    categorizeTransactionSmart s d v =
      (⟨categorizeTransaction d v, 0, "rules"⟩, s) ∧
    categorizeWithEmbeddings s d v = (⟨"Other", 0, 0⟩, s) := by
  constructor
  · simp [categorizeTransactionSmart, h]
  · rw [isModelReady, Bool.and_eq_false_iff] at h
    rcases h with h | h
    · cases hc : s.categoryEmbeddings with
      | none => simp [categorizeWithEmbeddings, hc]
      | some ces => rw [hc] at h; simp at h
    · simp [categorizeWithEmbeddings, h]

/-- Claim C9, witness at the concrete uninitialized state. -/
theorem c9_not_ready_fallback_witness :
    categorizeTransactionSmart exampleNotReadyState "NTUC FAIRPRICE" none =
      (⟨categorizeTransaction "NTUC FAIRPRICE" none, 0, "rules"⟩, exampleNotReadyState) ∧
    categorizeWithEmbeddings exampleNotReadyState "NTUC FAIRPRICE" none =
      (⟨"Other", 0, 0⟩, exampleNotReadyState) :=
  c9_not_ready_fallback exampleNotReadyState "NTUC FAIRPRICE" none (by decide)

/-- Claim C10: calling `learnUserCategory` while the model is not
initialized returns with the state completely unchanged — no mapping stored,
no vector computed (`embedCalls` unchanged), nothing persisted
(`savedMappings` unchanged); the correction is silently dropped. -/
theorem c10_learn_dropped (s : EmbState) (d c : String) (h : s.extractor = false) :
    learnUserCategory s d c = s := by
  simp [learnUserCategory, h]

/-- Claim C10, witness at the concrete uninitialized state. -/
theorem c10_learn_dropped_witness :
    learnUserCategory exampleNotReadyState "GRAB* RIDE 12345" "Transport" =
      exampleNotReadyState :=
  c10_learn_dropped exampleNotReadyState "GRAB* RIDE 12345" "Transport" (by decide)

theorem processBank_mem_lift (period : SPeriod) (prev : Option Int) (m : RawMatch)
    (rest : List RawMatch) (t : BankTx)
    (h : t ∈ processBank period (some m.balanceCents) rest) :
    t ∈ processBank period prev (m :: rest) := by
  simp only [processBank]
  split
  · exact h
  · split
    · exact h
    · exact List.mem_cons_of_mem _ h

theorem processBank_head_emit (period : SPeriod) (p : Int) (m : RawMatch)
    (rest : List RawMatch)
    (hskip : (includes m.description "Interest" &&
      decide ((m.balanceCents - p).natAbs < 5000)) = false)
    (hdate : dateValid m.day m.month period.endD.year = true) :
    ∃ t ∈ processBank period (some p) (m :: rest),
      t.amount = mkRat (m.balanceCents - p) 100 ∧
      t.balance = mkRat m.balanceCents 100 := by
  refine ⟨⟨assignDate m.day m.month period, mkRat (m.balanceCents - p) 100,
    mkRat m.balanceCents 100⟩, ?_, rfl, rfl⟩
  simp only [processBank, rawAmountCents]
  rw [hskip]
  simp [hdate]

/-- Claim C1 (amended): in the bank-statement branch, every raw match after
the first that survives the interest-noise and date-validity filters is
emitted with amount exactly equal to its running balance minus the balance
of the immediately preceding raw match — even when that preceding raw match
was itself dropped from the output.  (Consequently consecutive *output*
transactions satisfy amount = balance delta, within 0.01, exactly when no
raw match between them was dropped; the counterexample shows the delta law
fails across a dropped small-interest entry.) -/
theorem c1_balance_delta (period : SPeriod) (prev0 : Option Int)
    (rms : List RawMatch) (k : Nat) (hk : k + 1 < rms.length)
    (hskip : (includes (rms.get ⟨k + 1, hk⟩).description "Interest" &&
      decide (((rms.get ⟨k + 1, hk⟩).balanceCents -
        (rms.get ⟨k, Nat.lt_of_succ_lt hk⟩).balanceCents).natAbs < 5000)) = false)
    (hdate : dateValid (rms.get ⟨k + 1, hk⟩).day (rms.get ⟨k + 1, hk⟩).month
      period.endD.year = true) :
    ∃ t ∈ processBank period prev0 rms,
      t.amount = mkRat ((rms.get ⟨k + 1, hk⟩).balanceCents -
        (rms.get ⟨k, Nat.lt_of_succ_lt hk⟩).balanceCents) 100 ∧
      t.balance = mkRat (rms.get ⟨k + 1, hk⟩).balanceCents 100 := by
  induction rms generalizing prev0 k with
  | nil => exact absurd hk (by simp)
  | cons a rest ih =>
    cases k with
    | zero =>
      cases rest with
      | nil => exact absurd hk (by simp)
      | cons b rest2 =>
        simp only [List.get] at hskip hdate ⊢
        obtain ⟨t, ht, h1, h2⟩ :=
          processBank_head_emit period a.balanceCents b rest2 hskip hdate
        exact ⟨t, processBank_mem_lift period prev0 a (b :: rest2) t ht, h1, h2⟩
    | succ k2 =>
      have hk2 : k2 + 1 < rest.length := Nat.lt_of_succ_lt_succ hk
      simp only [List.get] at hskip hdate ⊢
      obtain ⟨t, ht, h1, h2⟩ :=
        ih (some a.balanceCents) k2 hk2 hskip hdate
      exact ⟨t, processBank_mem_lift period prev0 a rest t ht, h1, h2⟩

/-- Claim C1, witness: in a three-row statement the third raw match is
emitted with amount equal to its balance minus the second raw match's
balance. -/
theorem c1_balance_delta_witness :
    ∃ t ∈ processBank ⟨⟨2025, 6, 1⟩, ⟨2025, 6, 31⟩⟩ none
      [⟨1, 6, "Cash Deposit", 10000, 10000⟩,
       ⟨2, 6, "Interest Credit", 10, 10010⟩,
       ⟨3, 6, "GIRO Payment", 9990, 20000⟩],
      t.amount = mkRat (20000 - 10010) 100 ∧ t.balance = mkRat 20000 100 :=
  c1_balance_delta ⟨⟨2025, 6, 1⟩, ⟨2025, 6, 31⟩⟩ none
    [⟨1, 6, "Cash Deposit", 10000, 10000⟩,
     ⟨2, 6, "Interest Credit", 10, 10010⟩,
     ⟨3, 6, "GIRO Payment", 9990, 20000⟩] 1 (by decide) (by decide) (by decide)

/-- Claim C1, counterexample to the claim as stated: a small interest entry
updates `prevBalance` but is dropped from the output, so the two
*consecutive output* transactions of this statement differ from the balance
delta by 0.10 > 0.01 (the second output transaction's amount is 99.90 while
its balance minus the first output transaction's balance is 100). -/
theorem c1_balance_delta_counterexample :
    processBank ⟨⟨2025, 6, 1⟩, ⟨2025, 6, 31⟩⟩ none
      [⟨1, 6, "Cash Deposit", 10000, 10000⟩,
       ⟨2, 6, "Interest Credit", 10, 10010⟩,
       ⟨3, 6, "GIRO Payment", 9990, 20000⟩] =
      [⟨⟨2025, 6, 1⟩, mkRat 100 1, mkRat 100 1⟩,
       ⟨⟨2025, 6, 3⟩, mkRat 999 10, mkRat 200 1⟩] ∧
    ¬ (|mkRat 999 10 - (mkRat 200 1 - mkRat 100 1)| ≤ mkRat 1 100) := by
  exact ⟨by decide, by decide⟩

theorem findParserFold_spec (t : String) :
    ∀ (ps : List ParserSpec) (b : Option ParserSpec) (c : ℚ),
      c ≤ (ps.foldl (findParserStep t) (b, c)).2 ∧
      (∀ q ∈ ps, q.canParse t ≤ (ps.foldl (findParserStep t) (b, c)).2) ∧
      (ps.foldl (findParserStep t) (b, c) = (b, c) ∨
        ∃ p ∈ ps, ps.foldl (findParserStep t) (b, c) = (some p, p.canParse t)) := by
  intro ps
  induction ps with
  | nil => exact fun b c => ⟨le_refl c, by simp, Or.inl rfl⟩
  | cons a rest ih =>
    intro b c
    simp only [List.foldl_cons]
    by_cases h : a.canParse t > c
    · have hstep : findParserStep t (b, c) a = (some a, a.canParse t) := by
        simp [findParserStep, h]
      rw [hstep]
      obtain ⟨i1, i2, i3⟩ := ih (some a) (a.canParse t)
      refine ⟨le_trans (le_of_lt h) i1, ?_, ?_⟩
      · intro q hq
        rcases List.mem_cons.mp hq with hq | hq
        · exact hq ▸ i1
        · exact i2 q hq
      · rcases i3 with i3 | ⟨p, hp, hp2⟩
        · exact Or.inr ⟨a, List.mem_cons_self a rest, i3⟩
        · exact Or.inr ⟨p, List.mem_cons_of_mem a hp, hp2⟩
    · have hstep : findParserStep t (b, c) a = (b, c) := by
        simp [findParserStep, h]
      rw [hstep]
      obtain ⟨i1, i2, i3⟩ := ih b c
      refine ⟨i1, ?_, ?_⟩
      · intro q hq
        rcases List.mem_cons.mp hq with hq | hq
        · exact hq ▸ le_trans (le_of_not_lt h) i1
        · exact i2 q hq
      · rcases i3 with i3 | ⟨p, hp, hp2⟩
        · exact Or.inl i3
        · exact Or.inr ⟨p, List.mem_cons_of_mem a hp, hp2⟩

theorem findParser_some_spec (ps : List ParserSpec) (t : String) (p : ParserSpec)
    (h : findParser ps t = some p) :
    p ∈ ps ∧ mkRat 1 2 ≤ p.canParse t ∧ ∀ q ∈ ps, q.canParse t ≤ p.canParse t := by
  obtain ⟨i1, i2, i3⟩ := findParserFold_spec t ps none 0
  unfold findParser at h
  by_cases hc : (ps.foldl (findParserStep t) (none, 0)).2 ≥ mkRat 1 2
  · rw [if_pos hc] at h
    rcases i3 with i3 | ⟨q, hq, hq2⟩
    · rw [i3] at h
      exact absurd h (by simp)
    · rw [hq2] at h hc
      simp only at h
      obtain rfl : q = p := Option.some.inj h
      exact ⟨hq, by simpa using hc, by simpa [hq2] using i2⟩
  · rw [if_neg hc] at h
    exact absurd h (by simp)

/-- Claim C4: `findParser` returns a parser exactly when some registered
parser reaches confidence 0.5; a returned parser is registered, has
confidence at least 0.5, and its confidence is maximal among all registered
parsers.  Concretely, a first page containing the literal text "UNITED
OVERSEAS BANK" selects the UOB parser (confidence 0.95 ≥ 0.5), and a text
matching no parser yields none. -/
theorem c4_registry_selection :
    (∀ (ps : List ParserSpec) (t : String) (p : ParserSpec),
      findParser ps t = some p →
        p ∈ ps ∧ mkRat 1 2 ≤ p.canParse t ∧
        ∀ q ∈ ps, q.canParse t ≤ p.canParse t) ∧
    (∀ (ps : List ParserSpec) (t : String),
      (∃ q ∈ ps, mkRat 1 2 ≤ q.canParse t) ↔ ∃ p, findParser ps t = some p) ∧
    (mkRat 1 2 ≤ uobCanParse "UNITED OVERSEAS BANK LIMITED Statement of Account" ∧
      findParser registryParsers "UNITED OVERSEAS BANK LIMITED Statement of Account" =
        some uobParserSpec) ∧
    findParser registryParsers "Monthly bill from an unrelated telco" = none := by
  refine ⟨fun ps t p h => findParser_some_spec ps t p h, ?_, ⟨by decide, rfl⟩, rfl⟩
  intro ps t
  constructor
  · rintro ⟨q, hq, hq2⟩
    obtain ⟨i1, i2, i3⟩ := findParserFold_spec t ps none 0
    have hscore : mkRat 1 2 ≤ (ps.foldl (findParserStep t) (none, 0)).2 :=
      le_trans hq2 (i2 q hq)
    unfold findParser
    rw [if_pos hscore]
    rcases i3 with i3 | ⟨p, _, hp2⟩
    · rw [i3] at hscore
      exact absurd hscore (by decide)
    · exact ⟨p, by rw [hp2]⟩
  · rintro ⟨p, hp⟩
    obtain ⟨h1, h2, _⟩ := findParser_some_spec ps t p hp
    exact ⟨p, h1, h2⟩

/-- Claim C4, witness: the returned UOB parser is registered, reaches the
threshold, and is maximal on the sample first page. -/
theorem c4_registry_selection_witness :
    uobParserSpec ∈ registryParsers ∧
    mkRat 1 2 ≤ uobParserSpec.canParse "UNITED OVERSEAS BANK LIMITED Statement of Account" ∧
    ∀ q ∈ registryParsers,
      q.canParse "UNITED OVERSEAS BANK LIMITED Statement of Account" ≤
        uobParserSpec.canParse "UNITED OVERSEAS BANK LIMITED Statement of Account" :=
  c4_registry_selection.1 registryParsers
    "UNITED OVERSEAS BANK LIMITED Statement of Account" uobParserSpec rfl

theorem foldl_max_init_le : ∀ (l : List ℚ) (a : ℚ), a ≤ l.foldl max a := by
  intro l
  induction l with
  | nil => exact fun a => le_refl a
  | cons x xs ih =>
    intro a
    exact le_trans (le_max_left a x) (ih (max a x))

theorem foldl_max_le_of_mem :
    ∀ (l : List ℚ) (a x : ℚ), x ∈ l → x ≤ l.foldl max a := by
  intro l
  induction l with
  | nil => intro a x hx; exact absurd hx (by simp)
  | cons y ys ih =>
    intro a x hx
    rcases List.mem_cons.mp hx with hx | hx
    · rw [List.foldl_cons, hx]
      exact le_trans (le_max_right a y) (foldl_max_init_le ys (max a y))
    · rw [List.foldl_cons]
      exact ih (max a y) x hx

theorem foldl_max_mem :
    ∀ (l : List ℚ) (a : ℚ), l.foldl max a = a ∨ l.foldl max a ∈ l := by
  intro l
  induction l with
  | nil => exact fun a => Or.inl rfl
  | cons y ys ih =>
    intro a
    rcases ih (max a y) with h | h
    · rcases max_cases a y with ⟨h2, _⟩ | ⟨h2, _⟩
      · exact Or.inl (by rw [List.foldl_cons, h, h2])
      · exact Or.inr (by rw [List.foldl_cons, h, h2]; exact List.mem_cons_self y ys)
    · exact Or.inr (List.mem_cons_of_mem y h)

theorem bestStep_fold_snd (e : Vec) (boost : ℚ) :
    ∀ (l : List (String × Vec)) (b : String × ℚ),
      (l.foldl (bestStep e boost) b).2 =
        (l.map (fun cand => cosineSimilarity e cand.2 + boost)).foldl max b.2 := by
  intro l
  induction l with
  | nil => exact fun b => rfl
  | cons x xs ih =>
    intro b
    simp only [List.foldl_cons, List.map_cons]
    rw [ih]
    have hstep : (bestStep e boost b x).2 = max b.2 (cosineSimilarity e x.2 + boost) := by
      by_cases h : cosineSimilarity e x.2 + boost > b.2
      · simp [bestStep, h, max_eq_right (le_of_lt h)]
      · simp [bestStep, h, max_eq_left (le_of_not_lt h)]
    rw [hstep]

theorem sync_bestScore (s : EmbState) (e : Vec) (ces : List (String × Vec))
    (hces : s.categoryEmbeddings = some ces) :
    categorizeWithEmbeddingSync s e =
      (if bestScore s e ces < mkRat 8 10 then
        (⟨"Other", bestScore s e ces,
          s.userMappingEmbeddings.length + ces.length⟩ : ClassifyOut)
      else
        ⟨(ces.foldl (bestStep e 0)
            (s.userMappingEmbeddings.foldl
              (fun b u => bestStep e (mkRat 1 4) b (u.2.1, u.2.2)) ("Other", -1))).1,
          min (bestScore s e ces) 1,
          s.userMappingEmbeddings.length + ces.length⟩) := by
  have hfold :
      (ces.foldl (bestStep e 0)
        (s.userMappingEmbeddings.foldl
          (fun b u => bestStep e (mkRat 1 4) b (u.2.1, u.2.2)) ("Other", -1))).2 =
      bestScore s e ces := by
    have h1 : s.userMappingEmbeddings.foldl
        (fun b u => bestStep e (mkRat 1 4) b (u.2.1, u.2.2)) ("Other", -1) =
        (s.userMappingEmbeddings.map (fun u => (u.2.1, u.2.2))).foldl
          (bestStep e (mkRat 1 4)) ("Other", -1) := by
      rw [List.foldl_map]
    rw [h1, bestStep_fold_snd, bestStep_fold_snd]
    rw [bestScore, scoreList, List.foldl_append]
    simp only [List.map_map, Prod.mk.eta, add_zero]
    have hcomp : ((fun cand => cosineSimilarity e cand.2 + mkRat 1 4) ∘
        fun (u : String × String × Vec) => u.2) =
        fun u => cosineSimilarity e u.2.2 + mkRat 1 4 := rfl
    rw [hcomp]
  simp only [categorizeWithEmbeddingSync, hces]
  rw [hfold]

/-- Claim C6: for a similarity classification with exemplar table `ces`, the
internal best score is the maximum of the score list (cosine similarity
plus the 0.25 boost against every user-correction vector, raw cosine
similarity against every exemplar vector): it is a member of the list and an
upper bound of it (given that some score is at least the fold's -1 start
value, which normalized vectors always satisfy); whenever that maximum is
below the 0.8 threshold the result is "Other" carrying the raw
sub-threshold score, and otherwise the returned confidence is the maximum
capped at 1. -/
theorem c6_similarity_score (s : EmbState) (e : Vec) (ces : List (String × Vec))
    (hces : s.categoryEmbeddings = some ces)
    (hsome : ∃ x ∈ scoreList s e ces, -1 ≤ x) :
    bestScore s e ces ∈ scoreList s e ces ∧
    (∀ x ∈ scoreList s e ces, x ≤ bestScore s e ces) ∧
    (bestScore s e ces < mkRat 8 10 →
      categorizeWithEmbeddingSync s e =
        ⟨"Other", bestScore s e ces, s.userMappingEmbeddings.length + ces.length⟩) ∧
    (¬ bestScore s e ces < mkRat 8 10 →
      (categorizeWithEmbeddingSync s e).confidence = min (bestScore s e ces) 1) := by
  refine ⟨?_, fun x hx => foldl_max_le_of_mem _ _ x hx, ?_, ?_⟩
  · unfold bestScore
    rcases foldl_max_mem (scoreList s e ces) (-1) with h | h
    · obtain ⟨x, hx, hx2⟩ := hsome
      have hxle : x ≤ (scoreList s e ces).foldl max (-1) :=
        foldl_max_le_of_mem _ _ x hx
      rw [h] at hxle ⊢
      have hx1 : x = -1 := le_antisymm hxle hx2
      exact hx1 ▸ hx
    · exact h
  · intro hlt
    rw [sync_bestScore s e ces hces, if_pos hlt]
  · intro hge
    rw [sync_bestScore s e ces hces, if_neg hge]

/-- Claim C6, witness at the concrete initialized state with query vector
[1]: the boosted user-correction score 1.25 is the maximum. -/
theorem c6_similarity_score_witness :
    bestScore exampleReadyState [1] [("Transport", [1])] ∈
      scoreList exampleReadyState [1] [("Transport", [1])] ∧
    (∀ x ∈ scoreList exampleReadyState [1] [("Transport", [1])],
      x ≤ bestScore exampleReadyState [1] [("Transport", [1])]) ∧
    (bestScore exampleReadyState [1] [("Transport", [1])] < mkRat 8 10 →
      categorizeWithEmbeddingSync exampleReadyState [1] =
        ⟨"Other", bestScore exampleReadyState [1] [("Transport", [1])],
          exampleReadyState.userMappingEmbeddings.length + 1⟩) ∧
    (¬ bestScore exampleReadyState [1] [("Transport", [1])] < mkRat 8 10 →
      (categorizeWithEmbeddingSync exampleReadyState [1]).confidence =
        min (bestScore exampleReadyState [1] [("Transport", [1])]) 1) :=
  c6_similarity_score exampleReadyState [1] [("Transport", [1])] rfl
    ⟨mkRat 5 4, by decide, by decide⟩

theorem mem_insertDesc (x y : Nat × ℚ) :
    ∀ l : List (Nat × ℚ), y ∈ insertDesc x l ↔ y = x ∨ y ∈ l := by
  intro l
  induction l with
  | nil => simp [insertDesc]
  | cons z zs ih =>
    simp only [insertDesc]
    by_cases h : x.2 ≥ z.2
    · rw [if_pos h]
      simp [List.mem_cons]
    · rw [if_neg h]
      simp only [List.mem_cons, ih]
      tauto

theorem mem_sortDesc (y : Nat × ℚ) : ∀ l : List (Nat × ℚ), y ∈ sortDesc l ↔ y ∈ l := by
  intro l
  induction l with
  | nil => simp [sortDesc]
  | cons z zs ih => simp [sortDesc, mem_insertDesc, ih]

theorem sorted_insertDesc (x : Nat × ℚ) :
    ∀ l : List (Nat × ℚ), l.Pairwise (fun a b => b.2 ≤ a.2) →
      (insertDesc x l).Pairwise (fun a b => b.2 ≤ a.2) := by
  intro l
  induction l with
  | nil => exact fun _ => List.pairwise_singleton _ x
  | cons z zs ih =>
    intro h
    rcases List.pairwise_cons.mp h with ⟨hz, hzs⟩
    simp only [insertDesc]
    by_cases hx : x.2 ≥ z.2
    · rw [if_pos hx]
      refine List.pairwise_cons.mpr ⟨?_, h⟩
      intro b hb
      rcases List.mem_cons.mp hb with hb | hb
      · exact hb ▸ hx
      · exact le_trans (hz b hb) hx
    · rw [if_neg hx]
      refine List.pairwise_cons.mpr ⟨?_, ih hzs⟩
      intro b hb
      rcases (mem_insertDesc x b zs).mp hb with hb | hb
      · exact hb ▸ le_of_not_le hx
      · exact hz b hb

theorem sorted_sortDesc : ∀ l : List (Nat × ℚ),
    (sortDesc l).Pairwise (fun a b => b.2 ≤ a.2) := by
  intro l
  induction l with
  | nil => exact List.Pairwise.nil
  | cons z zs ih => exact sorted_insertDesc z (sortDesc zs) ih

theorem mem_withIdxFrom {α : Type} (a : α) :
    ∀ (l : List α) (n i : Nat),
      (i, a) ∈ withIdxFrom n l ↔
        ∃ k, ∃ h : k < l.length, i = n + k ∧ l.get ⟨k, h⟩ = a := by
  intro l
  induction l with
  | nil => simp [withIdxFrom]
  | cons x xs ih =>
    intro n i
    simp only [withIdxFrom, List.mem_cons, Prod.mk.injEq, ih]
    constructor
    · rintro (⟨rfl, rfl⟩ | ⟨k, hk, rfl, hget⟩)
      · exact ⟨0, by simp, by simp⟩
      · exact ⟨k + 1, Nat.succ_lt_succ hk, by omega, by simpa using hget⟩
    · rintro ⟨k, hk, rfl, hget⟩
      cases k with
      | zero => exact Or.inl ⟨by omega, by simpa using hget.symm⟩
      | succ k2 =>
        exact Or.inr ⟨k2, Nat.lt_of_succ_lt_succ hk, by omega, by simpa using hget⟩

theorem fastFilter_eq_some (cache : List (String × Vec)) (te : Vec) (td : String)
    (tv : Option String) (thr : ℚ) (j i : Nat) (tx : SimTx) (sim : ℚ) :
    fastFilter cache te td tv thr (j, tx) = some (i, sim) ↔
      i = j ∧ tx.hidden = false ∧ ¬(tx.description = td ∧ tx.vendor = tv) ∧
      ∃ e, getCachedEmbedding cache tx.description tx.vendor = some e ∧
        sim = cosineSimilarity te e ∧ sim ≥ thr := by
  constructor
  · intro h
    unfold fastFilter at h
    split at h
    · exact absurd h (by simp)
    · rename_i h1
      split at h
      · exact absurd h (by simp)
      · rename_i h2
        split at h
        · exact absurd h (by simp)
        · rename_i e he
          dsimp only at h
          split at h
          · rename_i h3
            rw [Option.some_inj, Prod.mk.injEq] at h
            obtain ⟨rfl, rfl⟩ := h
            exact ⟨rfl, Bool.not_eq_true tx.hidden ▸ h1, h2, e, he, rfl, h3⟩
          · exact absurd h (by simp)
  · rintro ⟨rfl, hh, hs, e, he, rfl, hthr⟩
    unfold fastFilter
    rw [if_neg (by simp [hh]), if_neg hs, he]
    simp [hthr]

theorem fast_char (cache : List (String × Vec)) (td : String) (tv : Option String)
    (txs : List SimTx) (thr : ℚ) (te : Vec)
    (hte : getCachedEmbedding cache td tv = some te) (i : Nat) (sim : ℚ) :
    (i, sim) ∈ findSimilarTransactionsFast cache td tv txs thr ↔
      ∃ h : i < txs.length,
        (txs.get ⟨i, h⟩).hidden = false ∧
        ¬((txs.get ⟨i, h⟩).description = td ∧ (txs.get ⟨i, h⟩).vendor = tv) ∧
        ∃ e, getCachedEmbedding cache (txs.get ⟨i, h⟩).description
            (txs.get ⟨i, h⟩).vendor = some e ∧
          sim = cosineSimilarity te e ∧ sim ≥ thr := by
  unfold findSimilarTransactionsFast
  rw [hte]
  rw [mem_sortDesc, List.mem_filterMap]
  constructor
  · rintro ⟨⟨k, tx⟩, hmem, hf⟩
    obtain ⟨k2, hk2, hkeq, hget⟩ := (mem_withIdxFrom tx txs 0 k).mp hmem
    have hkk : k = k2 := by omega
    subst hkk
    subst hget
    obtain ⟨rfl, hh, hs, e, he, hsim, hthr⟩ :=
      (fastFilter_eq_some cache te td tv thr k i (txs.get ⟨k, hk2⟩) sim).mp hf
    exact ⟨hk2, hh, hs, e, he, hsim, hthr⟩
  · rintro ⟨h, hh, hs, e, he, hsim, hthr⟩
    refine ⟨(i, txs.get ⟨i, h⟩), ?_, ?_⟩
    · exact (mem_withIdxFrom (txs.get ⟨i, h⟩) txs 0 i).mpr ⟨i, h, by omega, rfl⟩
    · exact (fastFilter_eq_some cache te td tv thr i i (txs.get ⟨i, h⟩) sim).mpr
        ⟨rfl, hh, hs, e, he, hsim, hthr⟩

theorem fast_sorted (cache : List (String × Vec)) (td : String) (tv : Option String)
    (txs : List SimTx) (thr : ℚ) :
    (findSimilarTransactionsFast cache td tv txs thr).Pairwise
      (fun a b => b.2 ≤ a.2) := by
  unfold findSimilarTransactionsFast
  cases getCachedEmbedding cache td tv with
  | none => exact List.Pairwise.nil
  | some te => exact sorted_sortDesc _

theorem fast_mem_not_hidden (cache : List (String × Vec)) (td : String)
    (tv : Option String) (txs : List SimTx) (thr : ℚ) (i : Nat) (sim : ℚ)
    (h : (i, sim) ∈ findSimilarTransactionsFast cache td tv txs thr) :
    ∃ hlt : i < txs.length, (txs.get ⟨i, hlt⟩).hidden = false ∧
      (getCachedEmbedding cache (txs.get ⟨i, hlt⟩).description
        (txs.get ⟨i, hlt⟩).vendor).isSome = true := by
  cases hte : getCachedEmbedding cache td tv with
  | none =>
    unfold findSimilarTransactionsFast at h
    rw [hte] at h
    exact absurd h (by simp)
  | some te =>
    obtain ⟨hlt, hh, _, e, he, _, _⟩ := (fast_char cache td tv txs thr te hte i sim).mp h
    exact ⟨hlt, hh, by rw [he]; rfl⟩

theorem lookup_map_replace_isSome {α : Type} (k k2 : String) (v : α) :
    ∀ l : List (String × α), (l.lookup k2).isSome = true →
      ((l.map (fun p => if p.1 = k then (k, v) else p)).lookup k2).isSome = true := by
  intro l
  induction l with
  | nil => intro h; simp [List.lookup] at h
  | cons p ps ih =>
    intro h
    simp only [List.map_cons]
    by_cases hp : p.1 = k
    · rw [if_pos hp]
      cases hbeq : k2 == k with
      | true => simp [List.lookup, hbeq]
      | false =>
        have hb2 : (k2 == p.1) = false := hp ▸ hbeq
        rw [List.lookup, hb2] at h
        simp only [List.lookup, hbeq]
        exact ih h
    · rw [if_neg hp]
      cases hbeq : k2 == p.1 with
      | true => simp [List.lookup, hbeq]
      | false =>
        rw [List.lookup, hbeq] at h
        simp only [List.lookup, hbeq]
        exact ih h

theorem lookup_append_isSome {α : Type} (k k2 : String) (v : α) :
    ∀ l : List (String × α), (l.lookup k2).isSome = true →
      ((l ++ [(k, v)]).lookup k2).isSome = true := by
  intro l
  induction l with
  | nil => intro h; simp [List.lookup] at h
  | cons p ps ih =>
    intro h
    rw [List.cons_append]
    cases hbeq : k2 == p.1 with
    | true => simp [List.lookup, hbeq]
    | false =>
      rw [List.lookup, hbeq] at h
      simp only [List.lookup, hbeq]
      exact ih h

theorem mapSet_lookup_mono {α : Type} (k k2 : String) (v : α)
    (l : List (String × α)) (h2 : (l.lookup k2).isSome = true) :
    ((mapSet l k v).lookup k2).isSome = true := by
  unfold mapSet
  by_cases h : (l.lookup k).isSome
  · rw [if_pos h]
    exact lookup_map_replace_isSome k k2 v l h2
  · rw [if_neg h]
    exact lookup_append_isSome k k2 v l h2

theorem mapSet_lookup_self {α : Type} (k : String) (v : α)
    (l : List (String × α)) : ((mapSet l k v).lookup k).isSome = true := by
  unfold mapSet
  by_cases h : (l.lookup k).isSome
  · rw [if_pos h]
    induction l with
    | nil => simp [List.lookup] at h
    | cons p ps ih =>
      simp only [List.map_cons]
      by_cases hp : p.1 = k
      · rw [if_pos hp]
        simp [List.lookup]
      · rw [if_neg hp]
        have hb : (k == p.1) = false := by
          simp only [beq_eq_false_iff_ne, ne_eq]
          exact fun hh => hp hh.symm
        rw [List.lookup, hb] at h
        simp only [List.lookup, hb]
        exact ih h
  · rw [if_neg h]
    have hnone : l.lookup k = none := by
      cases hc : l.lookup k with
      | none => rfl
      | some x => rw [hc] at h; simp at h
    clear h
    induction l with
    | nil => simp [List.lookup]
    | cons p ps ih =>
      rw [List.lookup] at hnone
      rw [List.cons_append]
      cases hbeq : k == p.1 with
      | true => rw [hbeq] at hnone; simp at hnone
      | false =>
        rw [hbeq] at hnone
        simp only [List.lookup, hbeq]
        exact ih hnone

theorem getTxEmb_extractor (s : EmbState) (d : String) (v : Option String) :
    ((getTransactionEmbedding s d v).2).extractor = s.extractor := by
  unfold getTransactionEmbedding
  split
  · rfl
  · split
    · rfl
    · rfl

theorem getTxEmb_cache_mono (s : EmbState) (d : String) (v : Option String)
    (k : String) (h : (s.txCache.lookup k).isSome = true) :
    (((getTransactionEmbedding s d v).2).txCache.lookup k).isSome = true := by
  unfold getTransactionEmbedding
  split
  · exact h
  · split
    · exact h
    · exact mapSet_lookup_mono _ _ _ _ h

theorem getTxEmb_fst_isSome (s : EmbState) (d : String) (v : Option String)
    (hex : s.extractor = true) :
    ((getTransactionEmbedding s d v).1).isSome = true := by
  unfold getTransactionEmbedding
  rw [hex]
  simp only [Bool.not_true]
  split
  · rename_i h
    exact absurd h (by simp)
  · split
    · rfl
    · rfl

theorem getTxEmb_caches_key (s : EmbState) (d : String) (v : Option String)
    (hex : s.extractor = true) :
    (((getTransactionEmbedding s d v).2).txCache.lookup (txKey d v)).isSome = true := by
  unfold getTransactionEmbedding
  rw [hex]
  simp only [Bool.not_true]
  split
  · rename_i h
    exact absurd h (by simp)
  · split
    · rename_i e he
      rw [he]
      rfl
    · exact mapSet_lookup_self _ _ _

theorem slowLoop_extractor (te : Vec) (td : String) (tv : Option String) (thr : ℚ)
    (processed : List String) :
    ∀ (l : List (Nat × SimTx)) (s : EmbState),
      ((slowLoop te td tv thr processed s l).2).extractor = s.extractor := by
  intro l
  induction l with
  | nil => intro s; rfl
  | cons p rest ih =>
    intro s
    unfold slowLoop
    split
    · exact ih s
    · split
      · exact ih s
      · split
        · exact ih s
        · split
          · rename_i s1 heq
            rw [ih s1]
            have := congrArg (fun x => x.2.extractor) heq
            simp only at this
            rw [← this, getTxEmb_extractor]
          · rename_i e s1 heq
            have h2 := congrArg (fun x => x.2.extractor) heq
            simp only at h2
            show ((slowLoop te td tv thr processed s1 rest).2).extractor = s.extractor
            rw [ih s1, ← h2, getTxEmb_extractor]

theorem slowLoop_cache_mono (te : Vec) (td : String) (tv : Option String) (thr : ℚ)
    (processed : List String) :
    ∀ (l : List (Nat × SimTx)) (s : EmbState) (k : String),
      (s.txCache.lookup k).isSome = true →
      (((slowLoop te td tv thr processed s l).2).txCache.lookup k).isSome = true := by
  intro l
  induction l with
  | nil => intro s k h; exact h
  | cons p rest ih =>
    intro s k h
    unfold slowLoop
    split
    · exact ih s k h
    · split
      · exact ih s k h
      · split
        · exact ih s k h
        · split
          · rename_i s1 heq
            refine ih s1 k ?_
            have h2 := congrArg (fun x => x.2.txCache) heq
            simp only at h2
            rw [← h2]
            exact getTxEmb_cache_mono s _ _ k h
          · rename_i e s1 heq
            show (((slowLoop te td tv thr processed s1 rest).2).txCache.lookup k).isSome = true
            refine ih s1 k ?_
            have h2 := congrArg (fun x => x.2.txCache) heq
            simp only at h2
            rw [← h2]
            exact getTxEmb_cache_mono s _ _ k h

theorem slowLoop_mem (te : Vec) (td : String) (tv : Option String) (thr : ℚ)
    (processed : List String) :
    ∀ (l : List (Nat × SimTx)) (s : EmbState) (i : Nat) (sim : ℚ),
      (i, sim) ∈ (slowLoop te td tv thr processed s l).1 →
      ∃ tx, (i, tx) ∈ l ∧ tx.hidden = false := by
  intro l
  induction l with
  | nil => intro s i sim h; exact absurd h (by simp [slowLoop])
  | cons p rest ih =>
    intro s i sim h
    unfold slowLoop at h
    split at h
    · obtain ⟨tx, h1, h2⟩ := ih s i sim h
      exact ⟨tx, List.mem_cons_of_mem p h1, h2⟩
    · rename_i hhid
      split at h
      · obtain ⟨tx, h1, h2⟩ := ih s i sim h
        exact ⟨tx, List.mem_cons_of_mem p h1, h2⟩
      · split at h
        · obtain ⟨tx, h1, h2⟩ := ih s i sim h
          exact ⟨tx, List.mem_cons_of_mem p h1, h2⟩
        · split at h
          · obtain ⟨tx, h1, h2⟩ := ih _ i sim h
            exact ⟨tx, List.mem_cons_of_mem p h1, h2⟩
          · rename_i e s1 heq
            simp only at h
            split at h
            · rcases List.mem_cons.mp h with h | h
              · rw [Prod.mk.injEq] at h
                refine ⟨p.2, ?_, ?_⟩
                · rw [h.1]
                  exact List.mem_cons_self p rest
                · simpa using hhid
              · obtain ⟨tx, h1, h2⟩ := ih s1 i sim h
                exact ⟨tx, List.mem_cons_of_mem p h1, h2⟩
            · obtain ⟨tx, h1, h2⟩ := ih s1 i sim h
              exact ⟨tx, List.mem_cons_of_mem p h1, h2⟩

theorem slowLoop_cons_skip (te : Vec) (td : String) (tv : Option String) (thr : ℚ)
    (processed : List String) (s : EmbState) (p : Nat × SimTx)
    (rest : List (Nat × SimTx))
    (h : p.2.hidden = true ∨ (p.2.description = td ∧ p.2.vendor = tv) ∨
      (processed.contains (txKeyOf p.2) ||
        (s.txCache.lookup (txKeyOf p.2)).isSome) = true) :
    slowLoop te td tv thr processed s (p :: rest) =
      slowLoop te td tv thr processed s rest := by
  conv_lhs => unfold slowLoop
  rcases h with h | h | h
  · rw [if_pos h]
  · by_cases h1 : p.2.hidden = true
    · rw [if_pos h1]
    · rw [if_neg h1, if_pos h]
  · by_cases h1 : p.2.hidden = true
    · rw [if_pos h1]
    · rw [if_neg h1]
      by_cases h2 : p.2.description = td ∧ p.2.vendor = tv
      · rw [if_pos h2]
      · rw [if_neg h2, if_pos h]

theorem slowLoop_cons_emit (te : Vec) (td : String) (tv : Option String) (thr : ℚ)
    (processed : List String) (s : EmbState) (p : Nat × SimTx)
    (rest : List (Nat × SimTx))
    (hhid : p.2.hidden = false)
    (hself : ¬(p.2.description = td ∧ p.2.vendor = tv))
    (hskip : (processed.contains (txKeyOf p.2) ||
      (s.txCache.lookup (txKeyOf p.2)).isSome) = false) :
    slowLoop te td tv thr processed s (p :: rest) =
      match getTransactionEmbedding s p.2.description p.2.vendor with
      | (none, s1) => slowLoop te td tv thr processed s1 rest
      | (some e, s1) =>
        let sim := cosineSimilarity te e
        let r := slowLoop te td tv thr processed s1 rest
        (if sim ≥ thr then (p.1, sim) :: r.1 else r.1, r.2) := by
  conv_lhs => unfold slowLoop
  rw [if_neg (by simp [hhid]), if_neg hself,
    if_neg (by rw [Bool.not_eq_true]; exact hskip)]

theorem slowLoop_covers (te : Vec) (td : String) (tv : Option String) (thr : ℚ)
    (processed : List String) :
    ∀ (l : List (Nat × SimTx)) (s : EmbState), s.extractor = true →
      (∀ k2, processed.contains k2 = true → (s.txCache.lookup k2).isSome = true) →
      ∀ q ∈ l, q.2.hidden = false → ¬(q.2.description = td ∧ q.2.vendor = tv) →
        (((slowLoop te td tv thr processed s l).2).txCache.lookup
          (txKeyOf q.2)).isSome = true := by
  intro l
  induction l with
  | nil => intro s _ _ q hq; exact absurd hq (by simp)
  | cons p rest ih =>
    intro s hex hproc q hq hqh hqs
    rcases List.mem_cons.mp hq with rfl | hq
    · by_cases hcond : (processed.contains (txKeyOf q.2) ||
        (s.txCache.lookup (txKeyOf q.2)).isSome) = true
      · rw [slowLoop_cons_skip te td tv thr processed s q rest (Or.inr (Or.inr hcond))]
        have hcache : (s.txCache.lookup (txKeyOf q.2)).isSome = true := by
          cases hc1 : processed.contains (txKeyOf q.2) with
          | true => exact hproc _ hc1
          | false =>
            rw [hc1, Bool.false_or] at hcond
            exact hcond
        exact slowLoop_cache_mono te td tv thr processed rest s _ hcache
      · rw [slowLoop_cons_emit te td tv thr processed s q rest hqh hqs
          (Bool.not_eq_true _ ▸ hcond)]
        cases hemb : getTransactionEmbedding s q.2.description q.2.vendor with
        | mk o s1 =>
          cases o with
          | none =>
            have := getTxEmb_fst_isSome s q.2.description q.2.vendor hex
            rw [hemb] at this
            exact absurd this (by simp)
          | some e =>
            have hcached : (s1.txCache.lookup (txKeyOf q.2)).isSome = true := by
              have h2 := congrArg (fun x => x.2.txCache) hemb
              simp only at h2
              rw [← h2]
              exact getTxEmb_caches_key s q.2.description q.2.vendor hex
            show ((((if cosineSimilarity te e ≥ thr then
                (q.1, cosineSimilarity te e) ::
                  (slowLoop te td tv thr processed s1 rest).1
              else (slowLoop te td tv thr processed s1 rest).1),
              (slowLoop te td tv thr processed s1 rest).2) :
                List (Nat × ℚ) × EmbState).2.txCache.lookup (txKeyOf q.2)).isSome = true
            exact slowLoop_cache_mono te td tv thr processed rest s1 _ hcached
    · by_cases h1 : p.2.hidden = true
      · rw [slowLoop_cons_skip te td tv thr processed s p rest (Or.inl h1)]
        exact ih s hex hproc q hq hqh hqs
      · by_cases h2 : p.2.description = td ∧ p.2.vendor = tv
        · rw [slowLoop_cons_skip te td tv thr processed s p rest (Or.inr (Or.inl h2))]
          exact ih s hex hproc q hq hqh hqs
        · by_cases h3 : (processed.contains (txKeyOf p.2) ||
            (s.txCache.lookup (txKeyOf p.2)).isSome) = true
          · rw [slowLoop_cons_skip te td tv thr processed s p rest (Or.inr (Or.inr h3))]
            exact ih s hex hproc q hq hqh hqs
          · rw [slowLoop_cons_emit te td tv thr processed s p rest
              (Bool.not_eq_true _ ▸ h1) h2 (Bool.not_eq_true _ ▸ h3)]
            cases hemb : getTransactionEmbedding s p.2.description p.2.vendor with
            | mk o s1 =>
              cases o with
              | none =>
                have := getTxEmb_fst_isSome s p.2.description p.2.vendor hex
                rw [hemb] at this
                exact absurd this (by simp)
              | some e =>
                have hext := congrArg (fun x => x.2.extractor) hemb
                simp only at hext
                have hex1 : s1.extractor = true := by
                  rw [← hext, getTxEmb_extractor, hex]
                have hproc1 : ∀ k2, processed.contains k2 = true →
                    (s1.txCache.lookup k2).isSome = true := by
                  intro k2 hk2
                  have h2c := congrArg (fun x => x.2.txCache) hemb
                  simp only at h2c
                  rw [← h2c]
                  exact getTxEmb_cache_mono s _ _ k2 (hproc k2 hk2)
                show ((((if cosineSimilarity te e ≥ thr then
                    (p.1, cosineSimilarity te e) ::
                      (slowLoop te td tv thr processed s1 rest).1
                  else (slowLoop te td tv thr processed s1 rest).1),
                  (slowLoop te td tv thr processed s1 rest).2) :
                    List (Nat × ℚ) × EmbState).2.txCache.lookup (txKeyOf q.2)).isSome = true
                exact ih s1 hex1 hproc1 q hq hqh hqs

/-- Claim C7: given a cached target vector, the fast similarity search
returns exactly the scored indices of the transactions that are not hidden,
are not the target itself (same description and vendor), have a cached
embedding vector, and reach the threshold (0.85 at the call sites), with the
pair's score equal to the cosine similarity; the output is sorted by
similarity descending.  Moreover a hidden transaction never appears in the
output of the computing search path either. -/
theorem c7_candidate_set :
    (∀ (cache : List (String × Vec)) (td : String) (tv : Option String)
        (txs : List SimTx) (thr : ℚ) (te : Vec),
      getCachedEmbedding cache td tv = some te →
        (∀ (i : Nat) (sim : ℚ),
          (i, sim) ∈ findSimilarTransactionsFast cache td tv txs thr ↔
            ∃ h : i < txs.length,
              (txs.get ⟨i, h⟩).hidden = false ∧
              ¬((txs.get ⟨i, h⟩).description = td ∧ (txs.get ⟨i, h⟩).vendor = tv) ∧
              ∃ e, getCachedEmbedding cache (txs.get ⟨i, h⟩).description
                  (txs.get ⟨i, h⟩).vendor = some e ∧
                sim = cosineSimilarity te e ∧ sim ≥ thr) ∧
        (findSimilarTransactionsFast cache td tv txs thr).Pairwise
          (fun a b => b.2 ≤ a.2)) ∧
    (∀ (s : EmbState) (td : String) (tv : Option String) (txs : List SimTx)
        (thr : ℚ) (i : Nat) (sim : ℚ),
      (i, sim) ∈ (findSimilarTransactions s td tv txs thr).1 →
        ∃ h : i < txs.length, (txs.get ⟨i, h⟩).hidden = false) := by
  refine ⟨fun cache td tv txs thr te hte =>
    ⟨fast_char cache td tv txs thr te hte, fast_sorted cache td tv txs thr⟩, ?_⟩
  intro s td tv txs thr i sim h
  unfold findSimilarTransactions at h
  split at h
  · exact absurd h (by simp)
  · split at h
    · exact absurd h (by simp)
    · rename_i te s1 heq
      dsimp only at h
      split at h
      · obtain ⟨hlt, hh, _⟩ := fast_mem_not_hidden s1.txCache td tv txs thr i sim h
        exact ⟨hlt, hh⟩
      · rw [mem_sortDesc, List.mem_append] at h
        rcases h with h | h
        · obtain ⟨hlt, hh, _⟩ := fast_mem_not_hidden s1.txCache td tv txs thr i sim h
          exact ⟨hlt, hh⟩
        · obtain ⟨tx, hmem, hh⟩ := slowLoop_mem te td tv thr _ _ s1 i sim h
          obtain ⟨k, hk, hik, hget⟩ := (mem_withIdxFrom tx txs 0 i).mp hmem
          have hkk : i = k := by omega
          subst hkk
          exact ⟨hk, hget ▸ hh⟩

/-- Claim C7, witness: the two cached Grab rides of the spec's example
appear in each other's fast candidate set (index 1 in the search for index
0's description, with similarity 1 ≥ 0.85). -/
theorem c7_candidate_set_witness :
    (1, (1 : ℚ)) ∈ findSimilarTransactionsFast grabCache "GRAB* RIDE 12345" none
      grabTxs (mkRat 85 100) :=
  ((c7_candidate_set.1 grabCache "GRAB* RIDE 12345" none grabTxs (mkRat 85 100)
      [1] rfl).1 1 1).mpr
    ⟨by decide, by decide, by decide, [1], by decide, by decide, by decide⟩

theorem getTxEmb_some_extractor (s : EmbState) (d : String) (v : Option String)
    (te : Vec) (s1 : EmbState)
    (heq : getTransactionEmbedding s d v = (some te, s1)) :
    s.extractor = true := by
  by_cases hex : s.extractor = true
  · exact hex
  · have hx : s.extractor = false := by simpa using hex
    unfold getTransactionEmbedding at heq
    rw [hx] at heq
    simp at heq

/-- Claim C8 (amended): the cached-coverage threshold of the fallback is
80%, not ~50%.  (1) Every fast-path candidate comes from a cached vector.
(2) When, after ensuring the target's vector, strictly more than 80% of the
transactions have cached vectors, the search returns exactly the fast
(cached-only) results with no further state change.  (3) Otherwise the
engine computes the missing vectors before finalizing (the source does so
in batches of 10 with yields in between — pure timing, not modelled): every
non-hidden, non-target transaction ends with its vector in the cache of the
final state. -/
theorem c8_coverage_fallback :
    (∀ (cache : List (String × Vec)) (td : String) (tv : Option String)
        (txs : List SimTx) (thr : ℚ) (i : Nat) (sim : ℚ),
      (i, sim) ∈ findSimilarTransactionsFast cache td tv txs thr →
        ∃ h : i < txs.length,
          (getCachedEmbedding cache (txs.get ⟨i, h⟩).description
            (txs.get ⟨i, h⟩).vendor).isSome = true) ∧
    (∀ (s : EmbState) (td : String) (tv : Option String) (txs : List SimTx)
        (thr : ℚ) (te : Vec) (s1 : EmbState),
      getTransactionEmbedding s td tv = (some te, s1) →
      ((txs.filter (fun tx => (s1.txCache.lookup (txKeyOf tx)).isSome)).length : ℚ) >
          (txs.length : ℚ) * mkRat 8 10 →
      findSimilarTransactions s td tv txs thr =
        (findSimilarTransactionsFast s1.txCache td tv txs thr, s1)) ∧
    (∀ (s : EmbState) (td : String) (tv : Option String) (txs : List SimTx)
        (thr : ℚ) (te : Vec) (s1 : EmbState),
      getTransactionEmbedding s td tv = (some te, s1) →
      ¬ (((txs.filter (fun tx => (s1.txCache.lookup (txKeyOf tx)).isSome)).length : ℚ) >
          (txs.length : ℚ) * mkRat 8 10) →
      ∀ tx ∈ txs, tx.hidden = false → ¬(tx.description = td ∧ tx.vendor = tv) →
        (((findSimilarTransactions s td tv txs thr).2).txCache.lookup
          (txKeyOf tx)).isSome = true) := by
  refine ⟨?_, ?_, ?_⟩
  · intro cache td tv txs thr i sim h
    obtain ⟨hlt, _, hc⟩ := fast_mem_not_hidden cache td tv txs thr i sim h
    exact ⟨hlt, hc⟩
  · intro s td tv txs thr te s1 heq hcov
    have hex : s.extractor = true := getTxEmb_some_extractor s td tv te s1 heq
    unfold findSimilarTransactions
    rw [hex]
    simp only [Bool.not_true, Bool.false_eq_true, if_false]
    rw [heq]
    dsimp only
    rw [if_pos hcov]
  · intro s td tv txs thr te s1 heq hcov tx htx hhid hself
    have hex : s.extractor = true := getTxEmb_some_extractor s td tv te s1 heq
    have hex1 : s1.extractor = true := by
      have h2 := congrArg (fun x => x.2.extractor) heq
      simp only at h2
      rw [← h2, getTxEmb_extractor, hex]
    unfold findSimilarTransactions
    rw [hex]
    simp only [Bool.not_true, Bool.false_eq_true, if_false]
    rw [heq]
    dsimp only
    rw [if_neg hcov]
    dsimp only
    have hproc : ∀ k2,
        ((findSimilarTransactionsFast s1.txCache td tv txs thr).filterMap
          (fun r => (txs.get? r.1).map txKeyOf)).contains k2 = true →
        (s1.txCache.lookup k2).isSome = true := by
      intro k2 hk2
      have hmem : k2 ∈ (findSimilarTransactionsFast s1.txCache td tv txs thr).filterMap
          (fun r => (txs.get? r.1).map txKeyOf) := by
        simpa using hk2
      obtain ⟨r, hr, hrk⟩ := List.mem_filterMap.mp hmem
      obtain ⟨hlt, _, hc⟩ :=
        fast_mem_not_hidden s1.txCache td tv txs thr r.1 r.2 (by simpa using hr)
      cases hg : txs.get? r.1 with
      | none => rw [hg] at hrk; exact absurd hrk (by simp)
      | some tx2 =>
        rw [hg] at hrk
        have hg2 : txs.get? r.1 = some (txs.get ⟨r.1, hlt⟩) := List.get?_eq_get hlt
        rw [hg] at hg2
        obtain rfl : tx2 = txs.get ⟨r.1, hlt⟩ := Option.some.inj hg2
        have hk2eq : k2 = txKeyOf (txs.get ⟨r.1, hlt⟩) := by
          simpa using hrk.symm
        rw [hk2eq]
        exact hc
    obtain ⟨n, hget⟩ := List.mem_iff_get.mp htx
    have hq : ((n : Nat), tx) ∈ withIdxFrom 0 txs :=
      (mem_withIdxFrom tx txs 0 n).mpr ⟨n, n.isLt, by omega, hget⟩
    exact slowLoop_covers te td tv thr _ (withIdxFrom 0 txs) s1 hex1 hproc
      (n, tx) hq hhid hself

/-- Claim C8, counterexample to the claim as stated: with 3 of 4
transactions cached (75%, at or above the claimed ~50% level) the engine
still computes the missing vector — the result includes the uncached
transaction at index 3 and the embedding model is invoked once. -/
theorem c8_coverage_fallback_counterexample :
    (exampleReadyState.txCache.lookup "t3").isSome = false ∧
    (exampleTxs.filter (fun tx =>
      (exampleReadyState.txCache.lookup (txKeyOf tx)).isSome)).length = 3 ∧
    exampleTxs.length = 4 ∧
    mkRat 1 2 ≤ mkRat 3 4 ∧
    (findSimilarTransactions exampleReadyState "t0" none exampleTxs
      (mkRat 85 100)).1 = [(1, 1), (2, 1), (3, 1)] ∧
    (findSimilarTransactions exampleReadyState "t0" none exampleTxs
      (mkRat 85 100)).2.embedCalls = 1 := by
  exact ⟨by decide, by decide, by decide, by decide, by decide, by decide⟩

/-- Claim C8, witness for the amended theorem: at 75% coverage the final
state holds a cached vector for the initially uncached transaction "t3". -/
theorem c8_coverage_fallback_witness :
    (((findSimilarTransactions exampleReadyState "t0" none exampleTxs
        (mkRat 85 100)).2).txCache.lookup
      (txKeyOf ⟨"t3", none, false⟩)).isSome = true :=
  c8_coverage_fallback.2.2 exampleReadyState "t0" none exampleTxs (mkRat 85 100)
    [1] exampleReadyState rfl (by decide) ⟨"t3", none, false⟩ (by decide)
    (by decide) (by decide)
